import Mathlib

/-!
Verification of the bout-bisect performance-regression bisection tool.

The repository is a pair of Python scripts (src/bout_bisect/bout_bisect.py
and src/bisect_performance_regression.py) that parse BOUT++ log files,
derive per-work-unit timing metrics and classify a candidate metric
against good/bad reference values.  This file gives a shallow embedding
of the algorithmic core in Lean: Python floats are modelled by rationals
(all arithmetic in the claims is exact at rational inputs), numpy's
non-raising division semantics by an explicit extended-value type, and
the log file by a list of lines without trailing newlines.
-/

set_option autoImplicit false

namespace BoutBisect

/-! ### Regression classifier

Embedding of metric_is_good (src/bout_bisect/bout_bisect.py lines
109-135; identical in src/bisect_performance_regression.py lines
93-119).  The Python defaults are metric_std=0.0 and factor=0.5; here
all arguments are explicit.  The print call has no bearing on the
returned value and is omitted.
-/

def metric_is_good (good bad metric metric_std factor : ℚ) : Bool :=
  let weighted_difference := factor * (bad - good)
  let good_zone := good + weighted_difference
  decide (metric < good_zone) && decide (metric_std < weighted_difference)

/-- Claim C1: the classifier returns true iff the metric is below the
threshold good + factor * (bad - good) and the noise is below
factor * (bad - good); with good=10, bad=20, factor=0.5 the calls
(12, 1.0), (18, 1.0), (12, 6.0) give true, false, false. -/
theorem metric_is_good_iff :
    (∀ good bad metric metric_std factor : ℚ,
      metric_is_good good bad metric metric_std factor = true ↔
        (metric < good + factor * (bad - good) ∧
         metric_std < factor * (bad - good))) ∧
    metric_is_good 10 20 12 1 (1/2) = true ∧
    metric_is_good 10 20 18 1 (1/2) = false ∧
    metric_is_good 10 20 12 6 (1/2) = false := by
  refine ⟨fun good bad metric metric_std factor => ?_,
    by norm_num [metric_is_good], by norm_num [metric_is_good],
    by norm_num [metric_is_good]⟩
  simp [metric_is_good]

/-- Claim C10: when the precondition good < bad is violated (bad ≤ good)
and factor > 0, metric_std ≥ 0, the noise window factor * (bad - good)
is non-positive, so the reproducibility test can never pass and the
classifier returns false for every metric. -/
theorem metric_is_good_false_of_bad_le_good
    (good bad metric metric_std factor : ℚ)
    (hle : bad ≤ good) (hf : 0 < factor) (hs : 0 ≤ metric_std) :
    metric_is_good good bad metric metric_std factor = false := by
  have hwd : factor * (bad - good) ≤ 0 :=
    mul_nonpos_of_nonneg_of_nonpos hf.le (by linarith)
  simp only [metric_is_good, Bool.and_eq_false_iff, decide_eq_false_iff_not, not_lt]
  right
  linarith

/-- Witness for C10: at good=20, bad=10, metric=0, metric_std=0,
factor=1/2 the hypotheses hold and the classifier returns false. -/
theorem metric_is_good_false_of_bad_le_good_witness :
    ((10 : ℚ) ≤ 20 ∧ (0 : ℚ) < 1/2 ∧ (0 : ℚ) ≤ 0) ∧
      metric_is_good 20 10 0 0 (1/2) = false :=
  ⟨⟨by norm_num, by norm_num, le_refl 0⟩,
   metric_is_good_false_of_bad_le_good 20 10 0 0 (1/2)
     (by norm_num) (by norm_num) (le_refl 0)⟩

/-! ### Data model

A parsed timing-table row.  The log columns are Sim Time, RHS evals,
Wall Time and the percentage-breakdown columns Calc, Inv, Comm, I/O,
SOLVER; pandas coerces the fields to floats, modelled as rationals. -/

structure Row where
  simTime : ℚ
  rhsEvals : ℚ
  wallTime : ℚ
  calcPct : ℚ
  invPct : ℚ
  commPct : ℚ
  ioPct : ℚ
  solverPct : ℚ
deriving DecidableEq

/-- A row after read_timings_from_logfile appends the five derived
absolute-seconds columns (lines 247-253). -/
structure FullRow extends Row where
  calcAbs : ℚ
  invAbs : ℚ
  commAbs : ℚ
  ioAbs : ℚ
  solverAbs : ℚ
deriving DecidableEq

/-- Embedding of DataFrameWithName (bout_bisect.py lines 25-34): a
table of rows carrying a name attribute.  The pandas _metadata and
_constructor machinery, which makes the name persist across dataframe
operations, is modelled by the wrapper carrying the name explicitly. -/
structure TimingTable (α : Type) where
  name : String
  rows : List α
deriving DecidableEq

/-- Embedding of a row-selection operation on a named table (pandas
returns a DataFrameWithName via _constructor, so the name field is
propagated; e.g. timing_table.drop([0]) at line 245 keeps only the rows
whose index label is not 0). -/
def selectRows {α : Type} (p : α → Bool) (t : TimingTable α) : TimingTable α :=
  ⟨t.name, t.rows.filter p⟩

/-! ### Metric deriver

numpy/pandas floating-point division never raises on a zero divisor: it
emits a RuntimeWarning and produces inf, -inf or nan.  NpVal is the
value domain of such a division at rational operands. -/

inductive NpVal where
  | finite (q : ℚ)
  | posInf
  | negInf
  | nan
deriving DecidableEq

/-- Division as numpy performs it on float operands: b = 0 gives nan
when a = 0, otherwise a signed infinity; no exception is raised. -/
def npDiv (a b : ℚ) : NpVal :=
  if b = 0 then
    if a = 0 then NpVal.nan
    else if 0 < a then NpVal.posInf
    else NpVal.negInf
  else NpVal.finite (a / b)

/-- numpy addition on the extended domain (nan absorbs; opposite
infinities give nan). -/
def NpVal.add : NpVal → NpVal → NpVal
  | NpVal.nan, _ => NpVal.nan
  | _, NpVal.nan => NpVal.nan
  | NpVal.posInf, NpVal.negInf => NpVal.nan
  | NpVal.negInf, NpVal.posInf => NpVal.nan
  | NpVal.posInf, _ => NpVal.posInf
  | _, NpVal.posInf => NpVal.posInf
  | NpVal.negInf, _ => NpVal.negInf
  | _, NpVal.negInf => NpVal.negInf
  | NpVal.finite a, NpVal.finite b => NpVal.finite (a + b)

/-- Sum of a list of numpy values (numpy sums an empty array to 0.0). -/
def npListSum (l : List NpVal) : NpVal :=
  l.foldl NpVal.add (NpVal.finite 0)

/-- Division of a numpy value by a row count, as np.mean performs it
(mean of an empty array is 0.0/0 = nan). -/
def NpVal.divNat : NpVal → ℕ → NpVal
  | NpVal.nan, _ => NpVal.nan
  | NpVal.posInf, _ => NpVal.posInf
  | NpVal.negInf, _ => NpVal.negInf
  | NpVal.finite q, n =>
    if n = 0 then
      if q = 0 then NpVal.nan else if 0 < q then NpVal.posInf else NpVal.negInf
    else NpVal.finite (q / n)

/-- Sum of a column over the table, as timing_table[column].sum();
a column is a selector on rows. -/
def colSum (t : TimingTable Row) (col : Row → ℚ) : ℚ :=
  (t.rows.map col).sum

/-- Embedding of total_rhs (bout_bisect.py lines 258-261): the sum of
the RHS evals column. -/
def total_rhs (t : TimingTable Row) : ℚ :=
  colSum t Row.rhsEvals

/-- Embedding of average_per_rhs (bout_bisect.py lines 264-267):
timing_table[column].sum() / total_rhs(timing_table).  Both operands
are numpy scalars, so a zero divisor produces a non-finite float
rather than raising ZeroDivisionError. -/
def average_per_rhs (t : TimingTable Row) (col : Row → ℚ) : NpVal :=
  npDiv (colSum t col) (total_rhs t)

/-- Embedding of time_per_rhs (bout_bisect.py lines 270-273). -/
def time_per_rhs (t : TimingTable Row) : NpVal :=
  average_per_rhs t Row.wallTime

/-- The per-row ratio series value_per_rhs of average_and_std_per_rhs
(bout_bisect.py lines 276-283): timing_table[column] elementwise
divided by timing_table["RHS evals"]. -/
def value_per_rhs (t : TimingTable Row) (col : Row → ℚ) : List NpVal :=
  t.rows.map (fun r => npDiv (col r) r.rhsEvals)

/-- The mean component of average_and_std_per_rhs (lines 276-283).
The std component requires a square root and is not needed by any
claim, so only the mean is embedded. -/
def average_and_std_per_rhs_mean (t : TimingTable Row) (col : Row → ℚ) : NpVal :=
  (npListSum (value_per_rhs t col)).divNat t.rows.length

/-- Embedding of the post-processing loop of read_timings_from_logfile
(bout_bisect.py lines 247-253): each derived absolute column is
wall_time * (percentage / 100), exact over the rationals. -/
def addAbsolute (r : Row) : FullRow :=
  ⟨r, r.wallTime * (r.calcPct / 100), r.wallTime * (r.invPct / 100),
   r.wallTime * (r.commPct / 100), r.wallTime * (r.ioPct / 100),
   r.wallTime * (r.solverPct / 100)⟩

/-- The loop appends the five absolute columns to every row of the
table. -/
def addAbsoluteColumns (rows : List Row) : List FullRow :=
  rows.map addAbsolute

/-- Helper for concrete example rows: sim time, RHS evals and wall
time, with all percentage columns zero. -/
def mkRow (st rhs wall : ℚ) : Row :=
  ⟨st, rhs, wall, 0, 0, 0, 0, 0⟩

/-- A degenerate table whose RHS evals column sums to zero. -/
def zeroRhsTable : TimingTable Row :=
  ⟨"degenerate", [mkRow 0 0 1]⟩

/-- A table with non-uniform per-row work-unit counts (1 and 4). -/
def nonUniformTable : TimingTable Row :=
  ⟨"nonuniform", [mkRow 0 1 1, mkRow 1 4 2]⟩

/-- A concrete row with the column values of a typical log line. -/
def sampleRow : Row :=
  ⟨1, 78, 9/10, 705/10, 112/10, 11/10, 2/10, 170/10⟩

/-! ### Claims about the metric deriver -/

/-- Counterexample to claim C2: on a table whose RHS evals column sums
to zero, average_per_rhs does not fail with a division-by-zero error;
numpy division returns inf (the operands are numpy scalars, for which
zero division only emits a RuntimeWarning). -/
theorem average_per_rhs_zero_returns_inf :
    average_per_rhs zeroRhsTable Row.wallTime = NpVal.posInf := by
  norm_num [average_per_rhs, npDiv, colSum, total_rhs, zeroRhsTable, mkRow]

/-- Claim C2 (amended): for every timing table whose RHS evals column
sums to zero, average_per_rhs returns a non-finite value (inf, -inf or
nan) instead of raising DivisionByZeroError; the non-finite value is
what the caller receives. -/
theorem average_per_rhs_zero_total (t : TimingTable Row) (col : Row → ℚ)
    (h : total_rhs t = 0) :
    average_per_rhs t col = NpVal.posInf ∨ average_per_rhs t col = NpVal.negInf ∨
      average_per_rhs t col = NpVal.nan := by
  unfold average_per_rhs npDiv
  rw [h, if_pos rfl]
  split_ifs with h1 h2
  · right; right; rfl
  · left; rfl
  · right; left; rfl

/-- Witness for the amended C2: the degenerate table has zero total
RHS evals and the amended conclusion holds on it. -/
theorem average_per_rhs_zero_total_witness :
    total_rhs zeroRhsTable = 0 ∧
      (average_per_rhs zeroRhsTable Row.wallTime = NpVal.posInf ∨
       average_per_rhs zeroRhsTable Row.wallTime = NpVal.negInf ∨
       average_per_rhs zeroRhsTable Row.wallTime = NpVal.nan) := by
  have h : total_rhs zeroRhsTable = 0 := by
    norm_num [total_rhs, colSum, zeroRhsTable, mkRow]
  exact ⟨h, average_per_rhs_zero_total zeroRhsTable Row.wallTime h⟩

/-- Claim C6: on a table with non-uniform work-unit counts (1 and 4),
the aggregate ratio average_per_rhs gives 3/5 while the mean of the
per-row ratios of average_and_std_per_rhs gives 3/4; the two differ by
3/20, far beyond floating-point tolerance, so the operations are
distinct. -/
theorem aggregate_and_rowwise_ratios_diverge :
    nonUniformTable.rows.map Row.rhsEvals = [1, 4] ∧
    average_per_rhs nonUniformTable Row.wallTime = NpVal.finite (3/5) ∧
    average_and_std_per_rhs_mean nonUniformTable Row.wallTime = NpVal.finite (3/4) ∧
    average_per_rhs nonUniformTable Row.wallTime ≠
      average_and_std_per_rhs_mean nonUniformTable Row.wallTime ∧
    (3/4 : ℚ) - 3/5 > 1/1000 := by
  have h1 : average_per_rhs nonUniformTable Row.wallTime = NpVal.finite (3/5) := by
    norm_num [average_per_rhs, colSum, total_rhs, nonUniformTable, mkRow, npDiv]
  have h2 : average_and_std_per_rhs_mean nonUniformTable Row.wallTime
      = NpVal.finite (3/4) := by
    norm_num [average_and_std_per_rhs_mean, value_per_rhs, npListSum, NpVal.add,
      NpVal.divNat, nonUniformTable, mkRow, npDiv, List.foldl]
  refine ⟨by norm_num [nonUniformTable, mkRow], h1, h2, ?_, by norm_num⟩
  rw [h1, h2]
  simp only [ne_eq, NpVal.finite.injEq]
  norm_num

/-! ### Claims about the named table -/

/-- Claim C8: a row-selection operation on a named table keeps the
name (pandas propagates the name attribute through _metadata and
_constructor of DataFrameWithName), the surviving rows are a sublist
of the original rows (each untargeted row is unchanged and relative
order is kept), and a row survives iff it was present and the
selection predicate holds of it. -/
theorem selectRows_frame {α : Type} (t : TimingTable α) (p : α → Bool) :
    (selectRows p t).name = t.name ∧
    List.Sublist (selectRows p t).rows t.rows ∧
    ∀ r : α, r ∈ (selectRows p t).rows ↔ (r ∈ t.rows ∧ p r = true) := by
  refine ⟨rfl, List.filter_sublist t.rows, fun r => ?_⟩
  simp [selectRows, List.mem_filter]

/-- Claim C9: total_rhs is invariant under any permutation of the
table's rows, because the sum of the RHS evals column is
order-independent. -/
theorem total_rhs_perm (t u : TimingTable Row) (h : List.Perm t.rows u.rows) :
    total_rhs t = total_rhs u := by
  unfold total_rhs colSum
  exact List.Perm.sum_eq (h.map Row.rhsEvals)

/-- A two-row table and its row-reversed counterpart, for the C9
witness. -/
def forwardTable : TimingTable Row :=
  ⟨"run00", [mkRow 0 2 1, mkRow 1 4 2]⟩

/-- Row-reversed version of forwardTable. -/
def reversedTable : TimingTable Row :=
  ⟨"run00", [mkRow 1 4 2, mkRow 0 2 1]⟩

/-- Witness for C9: the two concrete tables are row permutations of
each other and total_rhs agrees on them. -/
theorem total_rhs_perm_witness :
    List.Perm forwardTable.rows reversedTable.rows ∧
      total_rhs forwardTable = total_rhs reversedTable := by
  have h : List.Perm forwardTable.rows reversedTable.rows :=
    List.Perm.swap (mkRow 1 4 2) (mkRow 0 2 1) []
  exact ⟨h, total_rhs_perm forwardTable reversedTable h⟩

/-- Claim C5: every row of the post-processed table satisfies the
absolute-column formula: each derived column equals the row's wall
time multiplied by the corresponding percentage column over 100,
exactly. -/
theorem absolute_columns_formula (rows : List Row) (fr : FullRow)
    (h : fr ∈ addAbsoluteColumns rows) :
    fr.calcAbs = fr.wallTime * (fr.calcPct / 100) ∧
    fr.invAbs = fr.wallTime * (fr.invPct / 100) ∧
    fr.commAbs = fr.wallTime * (fr.commPct / 100) ∧
    fr.ioAbs = fr.wallTime * (fr.ioPct / 100) ∧
    fr.solverAbs = fr.wallTime * (fr.solverPct / 100) := by
  rcases List.mem_map.mp h with ⟨r, hr, rfl⟩
  exact ⟨rfl, rfl, rfl, rfl, rfl⟩

/-- Witness for C5 at a concrete one-row table built from sampleRow. -/
theorem absolute_columns_formula_witness :
    addAbsolute sampleRow ∈ addAbsoluteColumns [sampleRow] ∧
    ((addAbsolute sampleRow).calcAbs
        = (addAbsolute sampleRow).wallTime * ((addAbsolute sampleRow).calcPct / 100) ∧
     (addAbsolute sampleRow).invAbs
        = (addAbsolute sampleRow).wallTime * ((addAbsolute sampleRow).invPct / 100) ∧
     (addAbsolute sampleRow).commAbs
        = (addAbsolute sampleRow).wallTime * ((addAbsolute sampleRow).commPct / 100) ∧
     (addAbsolute sampleRow).ioAbs
        = (addAbsolute sampleRow).wallTime * ((addAbsolute sampleRow).ioPct / 100) ∧
     (addAbsolute sampleRow).solverAbs
        = (addAbsolute sampleRow).wallTime * ((addAbsolute sampleRow).solverPct / 100)) := by
  have h : addAbsolute sampleRow ∈ addAbsoluteColumns [sampleRow] := by
    simp [addAbsoluteColumns]
  exact ⟨h, absolute_columns_formula [sampleRow] (addAbsolute sampleRow) h⟩

/-! ### Log table extractor

The log file is modelled as a list of lines without trailing newlines;
an unopenable file is modelled as the absence of that list.  Python
str.startswith is modelled on the character lists. -/

/-- Python str.startswith: line.startswith(p). -/
def startswith (line p : String) : Bool :=
  List.isPrefixOf p.data line.data

/-- Index of the last line satisfying line.startswith(p), modelling the
loop of _get_start_end_of_timings (bout_bisect.py lines 176-183), whose
variables keep the line number of the last matching line. -/
def lastIdxStarting (p : String) : List String → Option ℕ
  | [] => none
  | l :: ls =>
    match lastIdxStarting p ls with
    | some i => some (i + 1)
    | none => if startswith l p then some 0 else none

/-- Embedding of _get_start_end_of_timings (bout_bisect.py lines
171-184): the line numbers of the last "Sim Time" line and the last
"Run finished" line, plus the total line count.  In Python, if either
sentinel is never seen, the corresponding local variable is unbound and
the return statement raises UnboundLocalError; that is the none case. -/
def get_start_end_of_timings (lines : List String) : Option (ℕ × ℕ × ℕ) :=
  match lastIdxStarting "Sim Time" lines, lastIdxStarting "Run finished" lines with
  | some s, some e => some (s, e, lines.length)
  | _, _ => none

/-- Failure modes of read_timings_from_logfile: unboundLocal is the
UnboundLocalError from a missing sentinel, fileNotFound the OSError
from an unopenable file, keyError the pandas KeyError of drop([0])
when no row has index label 0, emptyData the pandas EmptyDataError
when no header line remains. -/
inductive ReadError where
  | unboundLocal
  | fileNotFound
  | keyError
  | emptyData
deriving DecidableEq

/-- Structural model of pd.read_csv at lines 225-232: skip the first
skiprows lines, take the next non-blank line as the header, and parse
the following non-blank lines, at most nrows of them, as the data rows
(skip_blank_lines is on by default, so blank lines are not rows and do
not count towards nrows).  Rows are kept as raw lines; the numeric
coercion of the fields does not affect any claim proved here. -/
def csvStructure (lines : List String) (skiprows nrows : ℕ) :
    Option (String × List String) :=
  match (lines.drop skiprows).filter (fun l => decide (l ≠ "")) with
  | [] => none
  | h :: rest => some (h, rest.take nrows)

/-- Structural embedding of read_timings_from_logfile (bout_bisect.py
lines 187-255) up to the drop of the zeroth row: locate the sentinels,
default nout to end - start - 2 (header plus trailing blank line), read
the header and up to nout rows, and, when skip_first, drop the rows
whose index label is 0 (raising KeyError if there is none, as
DataFrame.drop does).  Which raw row lines carry index label 0 is
abstracted as the keyIsZero predicate, standing for pandas parsing the
Sim Time field to the float 0.0.  The name inference and the derived
absolute columns are modelled separately (inferName, addAbsolute). -/
def read_timings_structure (keyIsZero : String → Bool)
    (file : Option (List String)) (nout : Option ℕ) (skip_first : Bool) :
    Except ReadError (String × List String) :=
  match file with
  | none => Except.error ReadError.fileNotFound
  | some lines =>
    match get_start_end_of_timings lines with
    | none => Except.error ReadError.unboundLocal
    | some (start, stop, _) =>
      let n := match nout with
        | some n => n
        | none => stop - start - 2
      match csvStructure lines start n with
      | none => Except.error ReadError.emptyData
      | some (hdr, rows) =>
        if skip_first then
          if rows.any keyIsZero then
            Except.ok (hdr, rows.filter (fun l => !(keyIsZero l)))
          else Except.error ReadError.keyError
        else Except.ok (hdr, rows)

/-! ### Positions of the sentinel lines -/

/-- A list none of whose lines starts with p has no last match. -/
theorem lastIdxStarting_eq_none (p : String) (ls : List String)
    (h : ∀ l ∈ ls, startswith l p = false) :
    lastIdxStarting p ls = none := by
  induction ls with
  | nil => rfl
  | cons a as ih =>
    have ha : startswith a p = false := h a (List.mem_cons_self a as)
    have has : lastIdxStarting p as = none :=
      ih (fun l hl => h l (List.mem_cons_of_mem a hl))
    simp [lastIdxStarting, has, ha]

/-- If the suffix has a last match at j, the whole list has its last
match at the offset position. -/
theorem lastIdxStarting_append (p : String) (xs ys : List String) (j : ℕ)
    (h : lastIdxStarting p ys = some j) :
    lastIdxStarting p (xs ++ ys) = some (xs.length + j) := by
  induction xs with
  | nil => simpa using h
  | cons a as ih =>
    have : lastIdxStarting p (a :: (as ++ ys)) = some (as.length + j + 1) := by
      simp [lastIdxStarting, ih]
    simpa [Nat.add_assoc, Nat.add_comm 1 j] using this

/-- A head line that matches, over a tail with no match, is the last
match, at index 0. -/
theorem lastIdxStarting_cons_head (p l : String) (ls : List String)
    (hl : startswith l p = true) (h : lastIdxStarting p ls = none) :
    lastIdxStarting p (l :: ls) = some 0 := by
  simp [lastIdxStarting, h, hl]

/-- Claim C3: when no line of the log starts with the sentinel "Sim
Time", the extractor fails (the spec's ParseError; concretely the
start variable of _get_start_end_of_timings is never assigned and the
return statement raises UnboundLocalError, propagated uncaught), and
it also fails when the file cannot be opened (the OSError of open,
likewise propagated uncaught). -/
theorem read_timings_fails_without_sentinel (keyIsZero : String → Bool)
    (nout : Option ℕ) (skip_first : Bool) (lines : List String)
    (h : ∀ l ∈ lines, startswith l "Sim Time" = false) :
    read_timings_structure keyIsZero (some lines) nout skip_first
      = Except.error ReadError.unboundLocal ∧
    read_timings_structure keyIsZero none nout skip_first
      = Except.error ReadError.fileNotFound := by
  constructor
  · have h1 : lastIdxStarting "Sim Time" lines = none :=
      lastIdxStarting_eq_none "Sim Time" lines h
    simp [read_timings_structure, get_start_end_of_timings, h1]
  · rfl

/-- Witness for C3 at a concrete sentinel-free log. -/
theorem read_timings_fails_without_sentinel_witness :
    (∀ l ∈ ["MPI initialized", ""], startswith l "Sim Time" = false) ∧
    read_timings_structure (fun _ => false) (some ["MPI initialized", ""]) none true
      = Except.error ReadError.unboundLocal ∧
    read_timings_structure (fun _ => false) none none true
      = Except.error ReadError.fileNotFound := by
  have h : ∀ l ∈ ["MPI initialized", ""], startswith l "Sim Time" = false := by
    decide
  exact ⟨h, read_timings_fails_without_sentinel (fun _ => false) none true
    ["MPI initialized", ""] h⟩

/-- A minimal complete log: one header, one data row, the trailing
blank line and the end sentinel. -/
def shortLog : List String :=
  ["Sim Time | RHS evals", "0 | 2", "", "Run finished"]

/-- Counterexample to claim C4: on shortLog there is exactly 1
available data row, yet requesting nout = 2 does not clamp to
min(2, 1) = 1 rows; pd.read_csv reads past the end sentinel (the blank
line is skipped, the "Run finished" line becomes a data row), so the
returned table has 2 rows, not min(2, 1). -/
theorem read_timings_overreads :
    read_timings_structure (fun _ => false) (some shortLog) (some 2) false
      = Except.ok ("Sim Time | RHS evals", ["0 | 2", "Run finished"]) ∧
    (["0 | 2", "Run finished"] : List String).length ≠ min 2 1 := by
  exact ⟨rfl, by decide⟩

/-- Claim C4 (amended): for a well-formed log — some preamble, the
sentinel header, a nonempty block of data rows whose zeroth row alone
carries index label 0, the trailing blank line, the end sentinel, and
a trailer — the extractor returns a table with
min(nout, available rows) rows, minus one when skip_first, provided
the requested nout does not exceed the available rows (when nout is
omitted it defaults to exactly the available count).  Without that
proviso the property fails: read_csv does not clamp at the end
sentinel (see the counterexample read_timings_overreads). -/
theorem read_timings_row_count
    (keyIsZero : String → Bool) (pre brest trailer : List String)
    (hdr b0 fin : String) (nout : Option ℕ) (skip_first : Bool)
    (hhdr : startswith hdr "Sim Time" = true)
    (hfin : startswith fin "Run finished" = true)
    (hfinST : startswith fin "Sim Time" = false)
    (hbody : ∀ l ∈ b0 :: brest, l ≠ "" ∧ startswith l "Sim Time" = false)
    (htrailST : ∀ l ∈ trailer, startswith l "Sim Time" = false)
    (htrailRF : ∀ l ∈ trailer, startswith l "Run finished" = false)
    (hkey0 : keyIsZero b0 = true)
    (hkeyrest : ∀ l ∈ brest, keyIsZero l = false)
    (hnout : ∀ n, nout = some n → 1 ≤ n ∧ n ≤ (b0 :: brest).length) :
    ∃ rows : List String,
      read_timings_structure keyIsZero
          (some (pre ++ hdr :: ((b0 :: brest) ++ "" :: fin :: trailer)))
          nout skip_first
        = Except.ok (hdr, rows) ∧
      rows.length =
        (match nout with
         | some n => min n (b0 :: brest).length
         | none => (b0 :: brest).length) - (if skip_first then 1 else 0) := by
  have hdrne : hdr ≠ "" := by
    intro hcon
    rw [hcon] at hhdr
    exact absurd hhdr (by decide)
  have finne : fin ≠ "" := by
    intro hcon
    rw [hcon] at hfin
    exact absurd hfin (by decide)
  -- the start sentinel is last seen at the header line
  have hST_tail :
      lastIdxStarting "Sim Time" ((b0 :: brest) ++ "" :: fin :: trailer) = none := by
    apply lastIdxStarting_eq_none
    intro l hl
    rcases List.mem_append.mp hl with hb | hr
    · exact (hbody l hb).2
    · rcases List.mem_cons.mp hr with rfl | hr2
      · decide
      · rcases List.mem_cons.mp hr2 with rfl | hr3
        · exact hfinST
        · exact htrailST l hr3
  have hstart :
      lastIdxStarting "Sim Time"
          (pre ++ hdr :: ((b0 :: brest) ++ "" :: fin :: trailer))
        = some pre.length := by
    have h0 := lastIdxStarting_append "Sim Time" pre _ 0
      (lastIdxStarting_cons_head "Sim Time" hdr _ hhdr hST_tail)
    simpa using h0
  -- the end sentinel is last seen at the run-finished line
  have hstop :
      lastIdxStarting "Run finished"
          (pre ++ hdr :: ((b0 :: brest) ++ "" :: fin :: trailer))
        = some (pre.length + ((b0 :: brest).length + 2)) := by
    have heq : pre ++ hdr :: ((b0 :: brest) ++ "" :: fin :: trailer)
        = (pre ++ hdr :: ((b0 :: brest) ++ [""])) ++ fin :: trailer := by
      simp
    rw [heq, lastIdxStarting_append "Run finished" _ _ 0
      (lastIdxStarting_cons_head "Run finished" fin _ hfin
        (lastIdxStarting_eq_none "Run finished" trailer htrailRF))]
    simp only [Option.some.injEq, List.length_append, List.length_cons,
      List.length_nil]
    omega
  have hgse :
      get_start_end_of_timings
          (pre ++ hdr :: ((b0 :: brest) ++ "" :: fin :: trailer))
        = some (pre.length, pre.length + ((b0 :: brest).length + 2),
            (pre ++ hdr :: ((b0 :: brest) ++ "" :: fin :: trailer)).length) := by
    unfold get_start_end_of_timings
    rw [hstart, hstop]
  -- the csv stage returns the header and the blank-stripped rows
  have hbodyfilter : (b0 :: brest).filter (fun l => decide (l ≠ "")) = b0 :: brest :=
    List.filter_eq_self.mpr (fun a ha => decide_eq_true ((hbody a ha).1))
  have hcsv : ∀ m : ℕ,
      csvStructure (pre ++ hdr :: ((b0 :: brest) ++ "" :: fin :: trailer))
          pre.length m
        = some (hdr,
            ((b0 :: brest) ++ fin :: trailer.filter (fun l => decide (l ≠ ""))).take m) := by
    intro m
    have hdrop :
        (pre ++ hdr :: ((b0 :: brest) ++ "" :: fin :: trailer)).drop pre.length
          = hdr :: ((b0 :: brest) ++ "" :: fin :: trailer) :=
      List.drop_left pre _
    have hfilter :
        (hdr :: ((b0 :: brest) ++ "" :: fin :: trailer)).filter (fun l => decide (l ≠ ""))
          = hdr :: ((b0 :: brest) ++ fin :: trailer.filter (fun l => decide (l ≠ ""))) := by
      rw [@List.filter_cons_of_pos String (fun l => decide (l ≠ "")) hdr
            ((b0 :: brest) ++ "" :: fin :: trailer) (decide_eq_true hdrne),
        List.filter_append, hbodyfilter,
        @List.filter_cons_of_neg String (fun l => decide (l ≠ "")) ""
          (fin :: trailer) (by simp),
        @List.filter_cons_of_pos String (fun l => decide (l ≠ "")) fin
          trailer (decide_eq_true finne)]
    unfold csvStructure
    rw [hdrop, hfilter]
  -- the common count computation at a given row request m
  have main : ∀ m : ℕ, 1 ≤ m → m ≤ (b0 :: brest).length →
      ∃ rows : List String,
        (if skip_first then
          if (((b0 :: brest) ++ fin :: trailer.filter (fun l => decide (l ≠ ""))).take m).any keyIsZero then
            Except.ok (hdr,
              (((b0 :: brest) ++ fin :: trailer.filter (fun l => decide (l ≠ ""))).take m).filter
                (fun l => !(keyIsZero l)))
          else Except.error ReadError.keyError
         else
          Except.ok (hdr,
            ((b0 :: brest) ++ fin :: trailer.filter (fun l => decide (l ≠ ""))).take m))
          = Except.ok (hdr, rows) ∧
        rows.length = min m (b0 :: brest).length - (if skip_first then 1 else 0) := by
    intro m hm1 hm2
    have hlen : (b0 :: brest).length = brest.length + 1 := List.length_cons b0 brest
    have htake :
        ((b0 :: brest) ++ fin :: trailer.filter (fun l => decide (l ≠ ""))).take m
          = (b0 :: brest).take m := by
      rw [List.take_append_eq_append_take]
      have h0 : m - (b0 :: brest).length = 0 := by omega
      rw [h0, List.take_zero, List.append_nil]
    obtain ⟨k, rfl⟩ := Nat.exists_eq_succ_of_ne_zero (Nat.one_le_iff_ne_zero.mp hm1)
    have htake2 : (b0 :: brest).take (k + 1) = b0 :: brest.take k :=
      List.take_succ_cons
    have hktake : (brest.take k).length = k := by
      rw [List.length_take]
      omega
    have hmin : min (k + 1) (b0 :: brest).length = k + 1 := by omega
    cases skip_first with
    | false =>
      refine ⟨(b0 :: brest).take (k + 1),
        by rw [htake, if_neg Bool.false_ne_true], ?_⟩
      rw [htake2, hmin]
      simp only [List.length_cons, hktake, if_neg Bool.false_ne_true,
        Nat.sub_zero]
    | true =>
      have hany : ((b0 :: brest).take (k + 1)).any keyIsZero = true := by
        rw [htake2]
        simp [hkey0]
      have hfrows :
          ((b0 :: brest).take (k + 1)).filter (fun l => !(keyIsZero l))
            = brest.take k := by
        rw [htake2, @List.filter_cons_of_neg String (fun l => !(keyIsZero l)) b0
          (brest.take k) (by simp [hkey0])]
        exact List.filter_eq_self.mpr
          (fun a ha => by simp [hkeyrest a (List.take_subset k brest ha)])
      refine ⟨brest.take k, ?_, ?_⟩
      · rw [if_pos rfl, htake, hany, if_pos rfl, hfrows]
      · rw [hktake, hmin]
        simp
  rcases nout with _ | n
  · have hnval : pre.length + ((b0 :: brest).length + 2) - pre.length - 2
        = (b0 :: brest).length := by omega
    have hm := main (b0 :: brest).length (by simp) (le_refl _)
    simp only [read_timings_structure, hgse, hnval, hcsv]
    simpa only [min_self] using hm
  · obtain ⟨hn1, hn2⟩ := hnout n rfl
    have hm := main n hn1 hn2
    simp only [read_timings_structure, hgse, hcsv]
    exact hm

/-- Index predicate for the concrete well-formed log of the C4
witness: exactly the zeroth data row has Sim Time 0. -/
def exKeyZero (l : String) : Bool :=
  l == "0.000e+00 | 2 | 1.0e-1"

/-- Witness for the amended C4: a concrete well-formed log with 2 data
rows, nout = 2 and skip_first = true yields min(2, 2) - 1 = 1 row. -/
theorem read_timings_row_count_witness :
    exKeyZero "0.000e+00 | 2 | 1.0e-1" = true ∧
    ∃ rows : List String,
      read_timings_structure exKeyZero
          (some (["Initialising", ""] ++ "Sim Time | RHS evals | Wall Time" ::
            (("0.000e+00 | 2 | 1.0e-1" :: ["1.000e+00 | 78 | 9.0e-1"]) ++
              "" :: "Run finished at 10:00" :: ["Run time 5 s"])))
          (some 2) true
        = Except.ok ("Sim Time | RHS evals | Wall Time", rows) ∧
      rows.length = 1 := by
  refine ⟨by decide, ?_⟩
  obtain ⟨rows, h1, h2⟩ := read_timings_row_count exKeyZero ["Initialising", ""]
    ["1.000e+00 | 78 | 9.0e-1"] ["Run time 5 s"] "Sim Time | RHS evals | Wall Time"
    "0.000e+00 | 2 | 1.0e-1" "Run finished at 10:00" (some 2) true
    (by decide) (by decide) (by decide) (by decide) (by decide) (by decide)
    (by decide) (by decide)
    (by intro n hn; injection hn with h; simp only [List.length_cons,
      List.length_singleton]; omega)
  exact ⟨rows, h1, by simpa using h2⟩

/-! ### Name inference

Embedding of the name-guessing block of read_timings_from_logfile
(bout_bisect.py lines 235-242).  A directory path is modelled as its
list of segments after expanduser()/resolve() (the claims only concern
clean absolute paths, on which resolve is the identity).  pathlib's
stem is the final component with its last dot-suffix removed. -/

/-- Index of the last dot in the character list, as str.rfind does. -/
def lastDotIdx (cs : List Char) : Option ℕ :=
  (((cs.enum).filter (fun q => q.2 == '.')).map Prod.fst).getLast?

/-- pathlib's suffix-stripping: if the last dot sits strictly inside
the name (neither first nor last character), the stem is everything
before it; otherwise the whole name. -/
def pyStem (s : String) : String :=
  match lastDotIdx s.data with
  | some i =>
    if 0 < i ∧ i < s.data.length - 1 then String.mk (s.data.take i) else s
  | none => s

/-- path.stem of a path given by its segment list: pyStem of the last
segment (the empty string for the root path, as in pathlib). -/
def pathStem (segs : List String) : String :=
  pyStem ((segs.getLast?).getD "")

/-- Embedding of the name inference (lines 236-242): if path.stem is
"data", use path.parent.stem, else path.stem. -/
def inferName (segs : List String) : String :=
  if pathStem segs = "data" then pathStem segs.dropLast else pathStem segs

/-- Counterexample to claim C7: for the directory /a/b/run.1 the last
path segment is "run.1", but the code uses pathlib's stem, which
strips the ".1" suffix, so the inferred name is "run", not the last
path segment. -/
theorem inferName_strips_suffix :
    inferName ["a", "b", "run.1"] = "run" ∧ ("run" : String) ≠ "run.1" := by
  exact ⟨rfl, by decide⟩

/-- Claim C7 (amended): the inferred name is the stem of the last path
segment (the segment minus its final dot-suffix), except that when
that stem equals "data" the stem of the parent directory's segment is
used; in particular /a/b/data gives "b" and /a/b/sim gives "sim". -/
theorem inferName_stem_rule (a b last : String) :
    (inferName [a, b, last] =
      if pyStem last = "data" then pyStem b else pyStem last) ∧
    inferName ["a", "b", "data"] = "b" ∧
    inferName ["a", "b", "sim"] = "sim" := by
  refine ⟨?_, rfl, rfl⟩
  simp [inferName, pathStem]

end BoutBisect
